import Mathlib

/-!
# Verification of the monterey library (inheritance helpers + event emitter)

Shallow embedding of `src/index.js` and the two revisions contained in
`src/monterey.js`:

* revision 1 of `src/monterey.js` (the IIFE starting at its line 6): a per
  object event registry storing, per event type, either a bare handler
  function or an array of handlers, with guid-based removal; plus the
  `Function.prototype` inheritance helpers shared with `src/index.js`.
* revision 2 of `src/monterey.js` (the IIFE starting after the separator,
  its lines 320–622): a registry storing an array of handlers per type,
  in-place `splice` removal, and an `inherit` that triggers an
  `"inherited"` event on the parent.

JavaScript functions are identified by their guid / object identity, so a
handler is modelled as a `Nat`.  JavaScript arrays are heap cells (`Heap`)
because the source mutates arrays in place (`push`, `splice`) while
`trigger` holds a reference to one of them; the registry maps an event
type to either a bare handler or the address of such a cell.
-/

/-- The JavaScript values the claims need. `fn id` is a function object,
identified by its identity (the library tags functions with guids, and two
registrations are "the same handler" exactly when they are the same
function object). -/
inductive JSValue where
  | undefined
  | null
  | bool (b : Bool)
  | num (n : Int)
  | str (s : String)
  | fn (id : Nat)
deriving DecidableEq, Repr

/-- The JavaScript test `typeof v === 'function'`. -/
def JSValue.isCallable : JSValue → Bool
  | .fn _ => true
  | _ => false

/-! ## Association lists: the model of plain JavaScript objects used as maps.

JavaScript objects keep insertion order of keys; assignment to an existing
key overwrites in place, `delete` removes the key. -/

/-- Property read `o[k]` (absent key reads as `undefined`, here `none`). -/
def lookupA {α : Type} : List (String × α) → String → Option α
  | [], _ => none
  | (k', v') :: t, k => if k' = k then some v' else lookupA t k

/-- Property write `o[k] = v`: overwrite in place, or append a new key. -/
def setA {α : Type} : List (String × α) → String → α → List (String × α)
  | [], k, v => [(k, v)]
  | (k', v') :: t, k, v => if k' = k then (k, v) :: t else (k', v') :: setA t k v

/-- Key deletion, `delete o[k]`. -/
def removeA {α : Type} (l : List (String × α)) (k : String) : List (String × α) :=
  l.filter (fun p => p.1 ≠ k)

theorem lookupA_setA_self {α : Type} (l : List (String × α)) (k : String) (v : α) :
    lookupA (setA l k v) k = some v := by
  induction l with
  | nil => simp [setA, lookupA]
  | cons hd t ih =>
    by_cases h : hd.1 = k
    · simp [setA, h, lookupA]
    · simp [setA, h, lookupA, ih]

theorem lookupA_setA_ne {α : Type} (l : List (String × α)) (k k' : String) (v : α)
    (h : k' ≠ k) : lookupA (setA l k v) k' = lookupA l k' := by
  induction l with
  | nil => simp [setA, lookupA, Ne.symm h]
  | cons hd t ih =>
    by_cases hk : hd.1 = k
    · subst hk
      simp [setA, lookupA, Ne.symm h]
    · by_cases hk' : hd.1 = k'
      · simp [setA, hk, lookupA, hk', h]
      · simp [setA, hk, lookupA, hk', ih]

theorem lookupA_removeA_self {α : Type} (l : List (String × α)) (k : String) :
    lookupA (removeA l k) k = none := by
  induction l with
  | nil => simp [removeA, lookupA]
  | cons hd t ih =>
    by_cases h : hd.1 = k
    · simpa [removeA, h, lookupA] using ih
    · simpa [removeA, List.filter, h, lookupA] using ih

theorem lookupA_removeA_ne {α : Type} (l : List (String × α)) (k k' : String)
    (h : k' ≠ k) : lookupA (removeA l k) k' = lookupA l k' := by
  induction l with
  | nil => simp [removeA, lookupA]
  | cons hd t ih =>
    by_cases hk : hd.1 = k
    · subst hk
      simpa [removeA, List.filter, lookupA, Ne.symm h] using ih
    · by_cases hk' : hd.1 = k'
      · simp [removeA, List.filter, hk, lookupA, hk', h]
      · simpa [removeA, List.filter, hk, lookupA, hk'] using ih

/-! ## Events and dispatch traces -/

/-- The ephemeral event value built by `trigger`:
`{ type: type, time: new Date, source: object }`. -/
structure Event where
  type : String
  time : Nat
  source : Nat
deriving DecidableEq, Repr

/-- One handler invocation performed during a dispatch: which handler ran,
the `this` binding (`handlers[i].apply(object, args)` binds the emitting
object), and the arguments `(event, ...args)`. -/
structure Invoc where
  h : Nat
  thisId : Nat
  ev : Event
  extra : List JSValue
deriving DecidableEq, Repr

/-- The invocation records for dispatching the handler list `l` on object
`o`: every handler is called with `this = o` and arguments
`(event, ...extra)` where `event = {type := t, time := now, source := o}`. -/
def mkTrace (o : Nat) (t : String) (now : Nat) (extra : List JSValue)
    (l : List Nat) : List Invoc :=
  l.map (fun h => ⟨h, o, ⟨t, now, o⟩, extra⟩)

/-- Specification-side description of which handlers of a registration
list actually run: the prefix of the list up to and including the first
handler whose return value is exactly the boolean `false` (`=== false`);
any other return value, falsy ones included, does not stop dispatch. -/
def dispatchList (ret : Nat → JSValue) : List Nat → List Nat
  | [] => []
  | h :: t => if ret h = .bool false then [h] else h :: dispatchList ret t

/-! ## Heaps of JavaScript arrays -/

/-- The mutable array store: JavaScript arrays of handler functions,
indexed by address.  `push`/`splice` mutate a cell in place; assigning a
new array literal allocates a fresh cell. -/
abbrev Heap := List (List Nat)

/-- Mutate the cell at address `a` in place. -/
def updateCell (h : Heap) (a : Nat) (f : List Nat → List Nat) : Heap :=
  h.set a (f (h.getD a []))

/-! ## Revision 1 of `src/monterey.js`: `Object.events/on/off/trigger`
(lines 103–198).  `events[type]` is absent, a bare handler ("Optimize for
a single listener."), or an array of handlers. -/

/-- A registry entry of revision 1: a bare handler or an array (by
address, since `on` pushes onto the array in place). -/
inductive Entry1 where
  | single (h : Nat)
  | arr (a : Nat)
deriving DecidableEq, Repr

/-- An object's `__monterey_events__` registry of revision 1, together
with the array heap its entries point into. -/
structure St1 where
  heap : Heap
  reg : List (String × Entry1)
deriving DecidableEq, Repr

/-- Revision 1 `Object.on(object, type, handler)` (lines 114–134), after
the handler-is-a-function check: absent type stores the bare handler, a
bare handler is upgraded to a two-element array, an array is pushed onto
in place.  (The `newListener` pre-dispatch on lines 121–123 reads the
registry but performs no registry write itself; its handlers are ordinary
handlers whose own `on`/`off` calls are the operations modelled here, so
it is not re-executed inside this definition.) -/
def on1 (st : St1) (t : String) (h : Nat) : St1 :=
  match lookupA st.reg t with
  | none => { st with reg := setA st.reg t (.single h) }
  | some (.single h0) =>
      { heap := st.heap ++ [[h0, h]], reg := setA st.reg t (.arr st.heap.length) }
  | some (.arr a) => { st with heap := updateCell st.heap a (fun l => l ++ [h]) }

/-- The tail of revision 1 `off` for an array entry, applied to
`newHandlers` (the rebuilt array without the matching guids): one
remaining handler is stored bare, several are stored as the new array,
none deletes the type (lines 159–163). -/
def off1Arr (st : St1) (t : String) : List Nat → St1
  | [] => { st with reg := removeA st.reg t }
  | [x] => { st with reg := setA st.reg t (.single x) }
  | nh => { heap := st.heap ++ [nh], reg := setA st.reg t (.arr st.heap.length) }

/-- Revision 1 `Object.off(object, type, handler?)` (lines 140–169).
With no handler: `delete events[type]`.  With a handler: a bare entry is
deleted if its guid matches; an array is rebuilt without the matching
guids (`newHandlers`), condensed to a bare handler when one remains and
deleted when none remain. -/
def off1 (st : St1) (t : String) (h? : Option Nat) : St1 :=
  match h? with
  | none => { st with reg := removeA st.reg t }
  | some h =>
    match lookupA st.reg t with
    | none => st
    | some (.single h0) =>
        if h0 = h then { st with reg := removeA st.reg t } else st
    | some (.arr a) =>
        off1Arr st t ((st.heap.getD a []).filter (fun x => x ≠ h))

/-- A registry operation a handler may perform synchronously during a
dispatch: `on`, `off(type)`, or `off(type, handler)` on the same object. -/
inductive Op where
  | onOp (t : String) (h : Nat)
  | offAll (t : String)
  | offOne (t : String) (h : Nat)
deriving DecidableEq, Repr

/-- A handler's behaviour: the registry operations it performs when
invoked, and its return value. -/
abbrev Beh := Nat → List Op × JSValue

def execOp1 (st : St1) : Op → St1
  | .onOp t h => on1 st t h
  | .offAll t => off1 st t none
  | .offOne t h => off1 st t (some h)

def execOps1 (st : St1) (ops : List Op) : St1 :=
  ops.foldl execOp1 st

/-- Result of a dispatch: the final registry state, whether the loop ran
to completion without a thrown `TypeError` (`ok`), and the invocation
trace. -/
structure TrigRes where
  st : St1
  ok : Bool
  trace : List Invoc
deriving Repr

/-- The revision 1 dispatch loop over the array cell at `a`
(`for (var i = 0, len = handlers.length; i < len; ++i)`): `len` is read
once at dispatch start (`k` counts the remaining iterations), but each
`handlers[i]` reads the live cell.  Reading past the current length would
yield `undefined` and `undefined.apply` would throw (`ok := false`). -/
def go1 (beh : Beh) (o : Nat) (t : String) (now : Nat) (extra : List JSValue)
    (a : Nat) : Nat → Nat → St1 → TrigRes
  | 0, _, st => ⟨st, true, []⟩
  | k + 1, i, st =>
    let cur := st.heap.getD a []
    if hi : i < cur.length then
      let hd := cur[i]
      let st' := execOps1 st (beh hd).1
      if (beh hd).2 = .bool false then
        ⟨st', true, [⟨hd, o, ⟨t, now, o⟩, extra⟩]⟩
      else
        let r := go1 beh o t now extra a k (i + 1) st'
        ⟨r.st, r.ok, ⟨hd, o, ⟨t, now, o⟩, extra⟩ :: r.trace⟩
    else ⟨st, false, []⟩

/-- Revision 1 `Object.trigger(object, type, ...)` (lines 176–198): no-op
when no entry is registered; a bare handler is applied once (its return
value is not inspected — there is nothing after it to cancel); an array
is iterated with the cached length and the `=== false` short-circuit. -/
def trigger1 (st : St1) (o : Nat) (t : String) (now : Nat)
    (extra : List JSValue) (beh : Beh) : TrigRes :=
  match lookupA st.reg t with
  | none => ⟨st, true, []⟩
  | some (.single h) =>
      ⟨execOps1 st (beh h).1, true, [⟨h, o, ⟨t, now, o⟩, extra⟩]⟩
  | some (.arr a) =>
      go1 beh o t now extra a (st.heap.getD a []).length 0 st

/-- The handler list registered for `t` at a given moment, as observed
through the registry (bare handler ↦ one-element list, array ↦ the cell's
contents). -/
def entryList1 (st : St1) (t : String) : List Nat :=
  match lookupA st.reg t with
  | none => []
  | some (.single h) => [h]
  | some (.arr a) => st.heap.getD a []

/-! ## Revision 2 of `src/monterey.js`: `Object.on/off/trigger`
(lines 429–507).  `events[type]` is always an array of handlers; `off`
removes by splicing the array in place. -/

/-- An object's `_events` registry of revision 2: event type ↦ address of
the handler array. -/
structure St2 where
  heap : Heap
  reg : List (String × Nat)
deriving DecidableEq, Repr

/-- Revision 2 `Object.on(object, type, handler)` (lines 429–448), after
the handler check: creates the array on first use, stamps the handler's
`_guid` (identity, implicit here), and pushes onto the live array. -/
def on2 (st : St2) (t : String) (h : Nat) : St2 :=
  match lookupA st.reg t with
  | none => { heap := st.heap ++ [[h]], reg := setA st.reg t st.heap.length }
  | some a => { st with heap := updateCell st.heap a (fun l => l ++ [h]) }

/-- Revision 2 `Object.off(object, type, handler?)` (lines 454–476).
With no handler: `delete events[type]` (the array object itself survives,
so a dispatch already iterating it is unaffected).  With a handler:
`handlers.splice(i--, 1)` for every entry whose `_guid` matches — an
in-place removal from the live array. -/
def off2 (st : St2) (t : String) (h? : Option Nat) : St2 :=
  match h? with
  | none => { st with reg := removeA st.reg t }
  | some h =>
    match lookupA st.reg t with
    | none => st
    | some a => { st with heap := updateCell st.heap a (List.filter (fun x => x ≠ h)) }

def execOp2 (st : St2) : Op → St2
  | .onOp t h => on2 st t h
  | .offAll t => off2 st t none
  | .offOne t h => off2 st t (some h)

def execOps2 (st : St2) (ops : List Op) : St2 :=
  ops.foldl execOp2 st

/-- Dispatch result for revision 2. -/
structure TrigRes2 where
  st : St2
  ok : Bool
  trace : List Invoc
deriving Repr

/-- The revision 2 dispatch loop (lines 500–505): cached `len`, live
`handlers[i]` reads.  When a mid-dispatch `splice` has shrunk the array
below `i`, `handlers[i]` is `undefined` and `undefined.apply(...)` throws
a `TypeError` (`ok := false`). -/
def go2 (beh : Beh) (o : Nat) (t : String) (now : Nat) (extra : List JSValue)
    (a : Nat) : Nat → Nat → St2 → TrigRes2
  | 0, _, st => ⟨st, true, []⟩
  | k + 1, i, st =>
    let cur := st.heap.getD a []
    if hi : i < cur.length then
      let hd := cur[i]
      let st' := execOps2 st (beh hd).1
      if (beh hd).2 = .bool false then
        ⟨st', true, [⟨hd, o, ⟨t, now, o⟩, extra⟩]⟩
      else
        let r := go2 beh o t now extra a k (i + 1) st'
        ⟨r.st, r.ok, ⟨hd, o, ⟨t, now, o⟩, extra⟩ :: r.trace⟩
    else ⟨st, false, []⟩

/-- Revision 2 `Object.trigger(object, type, ...)` (lines 483–507). -/
def trigger2 (st : St2) (o : Nat) (t : String) (now : Nat)
    (extra : List JSValue) (beh : Beh) : TrigRes2 :=
  match lookupA st.reg t with
  | none => ⟨st, true, []⟩
  | some a => go2 beh o t now extra a (st.heap.getD a []).length 0 st

/-- The handler list registered for `t` in a revision 2 registry. -/
def cellList2 (st : St2) (t : String) : List Nat :=
  match lookupA st.reg t with
  | none => []
  | some a => st.heap.getD a []

/-- A behaviour whose handlers perform no registry operations and return
`ret h`: an ordinary handler that only computes a value. -/
def pureBeh (ret : Nat → JSValue) : Beh := fun h => ([], ret h)

/-! ### Small heap lemmas -/

theorem getD_append_self (h : Heap) (c : List Nat) :
    (h ++ [c]).getD h.length [] = c := by
  simp [List.getD_eq_getElem?_getD, List.getElem?_concat_length]

theorem getD_append_left (h : Heap) (c : List Nat) (a : Nat) (ha : a < h.length) :
    (h ++ [c]).getD a [] = h.getD a [] := by
  simp [List.getD_eq_getElem?_getD, List.getElem?_append_left ha]

theorem updateCell_getD_self (h : Heap) (a : Nat) (f : List Nat → List Nat) :
    (updateCell h a f).getD a [] =
      if a < h.length then f (h.getD a []) else h.getD a [] := by
  by_cases ha : a < h.length
  · simp [updateCell, List.getD_eq_getElem?_getD, List.getElem?_set_self, ha,
      List.getElem?_eq_getElem ha]
  · simp [updateCell, ha, List.set_eq_of_length_le (Nat.le_of_not_lt ha)]

theorem updateCell_getD_ne (h : Heap) (a a' : Nat) (f : List Nat → List Nat)
    (ha : a' ≠ a) : (updateCell h a f).getD a' [] = h.getD a' [] := by
  simp [updateCell, List.getD_eq_getElem?_getD, List.getElem?_set_ne (Ne.symm ha)]

/-! ## Heap growth: in revision 1 no operation ever shrinks or rewrites an
existing array cell — `on` only pushes, `off` only allocates fresh arrays
or rewrites the registry.  This is the structural fact behind the
snapshot behaviour of revision 1 dispatch. -/

theorem updateCell_getD_grow (h : Heap) (a a' : Nat) (x : Nat) :
    h.getD a' [] <+: (updateCell h a (fun l => l ++ [x])).getD a' [] := by
  by_cases haa : a' = a
  · subst haa
    by_cases hlt : a' < h.length
    · simp [updateCell, List.getD_eq_getElem?_getD, List.getElem?_set_self,
        hlt, List.getElem?_eq_getElem hlt]
    · simp [updateCell, List.getD_eq_getElem?_getD, List.getElem?_set,
        List.getElem?_eq_none (Nat.le_of_not_lt hlt)]
  · simp [updateCell, List.getD_eq_getElem?_getD, List.getElem?_set_ne (Ne.symm haa)]

theorem append_getD_grow (h : Heap) (cell : List Nat) (a' : Nat) :
    h.getD a' [] <+: (h ++ [cell]).getD a' [] := by
  by_cases hlt : a' < h.length
  · simp [List.getD_eq_getElem?_getD, List.getElem?_append_left hlt]
  · have h1 : h.getD a' [] = [] := by
      simp [List.getD_eq_getElem?_getD, List.getElem?_eq_none (Nat.le_of_not_lt hlt)]
    rw [h1]
    exact List.nil_prefix

theorem on1_cell_grow (st : St1) (t : String) (x a' : Nat) :
    st.heap.getD a' [] <+: (on1 st t x).heap.getD a' [] := by
  unfold on1
  cases hl : lookupA st.reg t with
  | none => simp
  | some e =>
    cases e with
    | single h0 => simpa using append_getD_grow st.heap [h0, x] a'
    | arr a => simpa using updateCell_getD_grow st.heap a a' x

theorem off1Arr_cell_grow (st : St1) (t : String) (nh : List Nat) (a' : Nat) :
    st.heap.getD a' [] <+: (off1Arr st t nh).heap.getD a' [] := by
  match nh with
  | [] => simp [off1Arr]
  | [x] => simp [off1Arr]
  | y :: z :: zs => simpa [off1Arr] using append_getD_grow st.heap (y :: z :: zs) a'

theorem off1_cell_grow (st : St1) (t : String) (h? : Option Nat) (a' : Nat) :
    st.heap.getD a' [] <+: (off1 st t h?).heap.getD a' [] := by
  cases h? with
  | none => simp [off1]
  | some h =>
    simp only [off1]
    split
    · exact List.prefix_refl _
    · split <;> simp
    · exact off1Arr_cell_grow st t _ a'

theorem execOp1_cell_grow (st : St1) (op : Op) (a' : Nat) :
    st.heap.getD a' [] <+: (execOp1 st op).heap.getD a' [] := by
  cases op with
  | onOp t h => exact on1_cell_grow st t h a'
  | offAll t => exact off1_cell_grow st t none a'
  | offOne t h => exact off1_cell_grow st t (some h) a'

theorem execOps1_cell_grow (st : St1) (ops : List Op) (a' : Nat) :
    st.heap.getD a' [] <+: (execOps1 st ops).heap.getD a' [] := by
  induction ops generalizing st with
  | nil => simp [execOps1]
  | cons op rest ih =>
    have h1 := execOp1_cell_grow st op a'
    have h2 := ih (execOp1 st op)
    exact h1.trans (by simpa [execOps1] using h2)

/-- The dispatch loop of revision 1 invokes exactly the handlers of the
snapshot (the cell's contents at dispatch start), in order, up to the
`=== false` short-circuit, no matter which `on`/`off` calls the handlers
perform: existing cells only ever grow, so the cached length and the live
indexed reads always see the snapshot elements.  No `TypeError` occurs. -/
theorem go1_spec (beh : Beh) (o : Nat) (t : String) (now : Nat)
    (extra : List JSValue) (a : Nat) (snap : List Nat) :
    ∀ k i st, snap <+: st.heap.getD a [] → i + k = snap.length →
      (go1 beh o t now extra a k i st).trace
          = mkTrace o t now extra (dispatchList (fun h => (beh h).2) (snap.drop i))
        ∧ (go1 beh o t now extra a k i st).ok = true := by
  intro k
  induction k with
  | zero =>
    intro i st _ hik
    have : snap.drop i = [] := List.drop_eq_nil_of_le (by omega)
    simp [go1, this, mkTrace, dispatchList]
  | succ k ih =>
    intro i st hpre hik
    have hisnap : i < snap.length := by omega
    have hi : i < (st.heap.getD a []).length :=
      Nat.lt_of_lt_of_le hisnap hpre.length_le
    have hread : (st.heap.getD a [])[i] = snap[i] := (hpre.getElem hisnap).symm
    have hdrop : snap.drop i = snap[i] :: snap.drop (i + 1) :=
      List.drop_eq_getElem_cons hisnap
    simp only [go1, dif_pos hi, hread, hdrop, dispatchList, mkTrace, List.map_cons]
    by_cases hret : (beh snap[i]).2 = .bool false
    · simp [hret, mkTrace]
    · have hpre' : snap <+: (execOps1 st (beh snap[i]).1).heap.getD a [] :=
        hpre.trans (execOps1_cell_grow st _ a)
      have hih := ih (i + 1) (execOps1 st (beh snap[i]).1) hpre' (by omega)
      simp only [if_neg hret]
      simp [hih.1, hih.2, mkTrace]

/-! ### Pure dispatches (handlers that perform no registry operations) -/

theorem go1_pure_st (beh : Beh) (hp : ∀ h, (beh h).1 = []) (o : Nat) (t : String)
    (now : Nat) (extra : List JSValue) (a : Nat) :
    ∀ k i st, (go1 beh o t now extra a k i st).st = st := by
  intro k
  induction k with
  | zero => intro i st; simp [go1]
  | succ k ih =>
    intro i st
    simp only [go1]
    split
    · split
      · simp [hp, execOps1]
      · simp [hp, execOps1, ih]
    · rfl

theorem trigger1_pure_st (st : St1) (o : Nat) (t : String) (now : Nat)
    (extra : List JSValue) (ret : Nat → JSValue) :
    (trigger1 st o t now extra (pureBeh ret)).st = st := by
  unfold trigger1
  split
  · rfl
  · simp [pureBeh, execOps1]
  · exact go1_pure_st (pureBeh ret) (fun _ => rfl) o t now extra _ _ 0 st

theorem go2_pure (beh : Beh) (hp : ∀ h, (beh h).1 = []) (o : Nat) (t : String)
    (now : Nat) (extra : List JSValue) (a : Nat) :
    ∀ k i st, i + k = (st.heap.getD a []).length →
      go2 beh o t now extra a k i st
        = ⟨st, true,
           mkTrace o t now extra
             (dispatchList (fun h => (beh h).2) ((st.heap.getD a []).drop i))⟩ := by
  intro k
  induction k with
  | zero =>
    intro i st hik
    have hnil : (st.heap.getD a []).drop i = [] := List.drop_eq_nil_of_le (by omega)
    rw [hnil]
    simp [go2, mkTrace, dispatchList]
  | succ k ih =>
    intro i st hik
    have hi : i < (st.heap.getD a []).length := by omega
    have hdrop : (st.heap.getD a []).drop i
        = (st.heap.getD a [])[i] :: (st.heap.getD a []).drop (i + 1) :=
      List.drop_eq_getElem_cons hi
    have hst' : ∀ hd, execOps2 st (beh hd).1 = st := by
      intro hd; simp [hp, execOps2]
    have hih := ih (i + 1) st (by omega)
    rw [hdrop]
    simp only [go2, dif_pos hi, hst', hih, dispatchList, mkTrace, List.map_cons]
    split <;> simp_all [mkTrace]

/-! ## Claim C2 — dispatch order, `this` binding, event value, and the
`=== false` short-circuit, in both revisions -/

/-- C2: For every object `O` and event type `t` with registered handlers,
`trigger(O, t, ...args)` builds one event value `{type: t, time: now,
source: O}` and invokes each registered handler in registration order with
`this` bound to `O` and arguments `(event, ...args)` (each `Invoc` record
carries exactly these); dispatch stops exactly when a handler's return
value is the boolean `false` (`dispatchList` keeps the prefix up to and
including the first such handler), and any other return value — other
falsy values included — does not stop dispatch.  Proven for the
revision 1 trigger (`src/monterey.js` lines 176–198) and the revision 2
trigger (lines 483–507); the registry itself is left unchanged. -/
theorem trigger_order_event_and_false_shortcircuit
    (st1 : St1) (st2 : St2) (o : Nat) (t : String) (now : Nat)
    (extra : List JSValue) (ret : Nat → JSValue) :
    (trigger1 st1 o t now extra (pureBeh ret)).trace
        = mkTrace o t now extra (dispatchList ret (entryList1 st1 t))
      ∧ (trigger1 st1 o t now extra (pureBeh ret)).ok = true
      ∧ (trigger1 st1 o t now extra (pureBeh ret)).st = st1
      ∧ (trigger2 st2 o t now extra (pureBeh ret)).trace
          = mkTrace o t now extra (dispatchList ret (cellList2 st2 t))
      ∧ (trigger2 st2 o t now extra (pureBeh ret)).ok = true
      ∧ (trigger2 st2 o t now extra (pureBeh ret)).st = st2 := by
  have hdl : ∀ l, dispatchList (fun h => (pureBeh ret h).2) l = dispatchList ret l := by
    intro l
    induction l with
    | nil => rfl
    | cons x xs ih => by_cases hx : ret x = .bool false <;> simp [dispatchList, pureBeh, hx, ih]
  refine ⟨?_, ?_, trigger1_pure_st st1 o t now extra ret, ?_, ?_, ?_⟩
  · have := (go1_spec (pureBeh ret) o t now extra)
    unfold trigger1 entryList1
    cases hl : lookupA st1.reg t with
    | none => simp [mkTrace, dispatchList]
    | some e =>
      cases e with
      | single h =>
        by_cases hx : ret h = .bool false <;>
          simp [mkTrace, dispatchList, hx]
      | arr a =>
        have hs := go1_spec (pureBeh ret) o t now extra a (st1.heap.getD a [])
          (st1.heap.getD a []).length 0 st1 (List.prefix_refl _) (by omega)
        simpa [hdl] using hs.1
  · unfold trigger1
    cases hl : lookupA st1.reg t with
    | none => rfl
    | some e =>
      cases e with
      | single h => rfl
      | arr a =>
        have hs := go1_spec (pureBeh ret) o t now extra a (st1.heap.getD a [])
          (st1.heap.getD a []).length 0 st1 (List.prefix_refl _) (by omega)
        exact hs.2
  all_goals {
    simp only [trigger2, cellList2]
    cases hl : lookupA st2.reg t with
    | none => simp [mkTrace, dispatchList]
    | some a =>
      have hs := go2_pure (pureBeh ret) (fun _ => rfl) o t now extra a
        (st2.heap.getD a []).length 0 st2 (by omega)
      simp only [List.getD_eq_getElem?_getD] at hs
      simp [hs, hdl]
  }

/-! ## Claim C4 — behaviour under mid-dispatch `on`/`off` -/

/-- C4 (amended): in the revision 1 emitter (`trigger` at `src/monterey.js`
lines 176–198 together with `on`/`off` at lines 114–169) exactly the
handlers registered for `t` at dispatch start are invoked, in registration
order (up to the documented `=== false` short-circuit), no matter which
`on`/`off` calls for the same object and type the handlers perform
mid-dispatch, and no error is raised: the loop bound is read once at
dispatch start, mid-dispatch `on` only appends past that bound, and
revision 1 `off` replaces the registered sequence instead of mutating the
iterated array.  The same does not hold for the revision 2 `off` (lines
454–476), which splices the live array — see the counterexample. -/
theorem trigger1_dispatch_snapshot (st : St1) (o : Nat) (t : String) (now : Nat)
    (extra : List JSValue) (beh : Beh) :
    (trigger1 st o t now extra beh).trace
        = mkTrace o t now extra
            (dispatchList (fun h => (beh h).2) (entryList1 st t))
      ∧ (trigger1 st o t now extra beh).ok = true := by
  unfold trigger1 entryList1
  cases hl : lookupA st.reg t with
  | none => simp [mkTrace, dispatchList]
  | some e =>
    cases e with
    | single h =>
      by_cases hx : (beh h).2 = .bool false <;> simp [mkTrace, dispatchList, hx]
    | arr a =>
      have hs := go1_spec beh o t now extra a (st.heap.getD a [])
        (st.heap.getD a []).length 0 st (List.prefix_refl _) (by omega)
      simpa using hs

/-- The concrete revision 2 state refuting C4 as stated: object `9` has
handlers `1` and `2` registered for `"x"` (one array cell `[1, 2]` at
address `0`). -/
def c4St2 : St2 := ⟨[[1, 2]], [("x", 0)]⟩

/-- Handler `1` removes itself mid-dispatch (`off(this, "x", h1)`); both
handlers return `undefined`, so neither cancels dispatch. -/
def c4Beh : Beh := fun h =>
  if h = 1 then ([Op.offOne "x" 1], JSValue.undefined) else ([], JSValue.undefined)

/-- C4 counterexample (revision 2, `off` lines 454–476 + `trigger` lines
483–507): handlers `[1, 2]` are registered for `"x"` at dispatch start and
neither returns `false`, yet only handler `1` is invoked — its mid-dispatch
`off` splices the live array, so `handlers[1]` is past the new end,
handler `2` is skipped and `undefined.apply` throws (`ok = false`).  This
falsifies "exactly the handlers registered at dispatch start are invoked
... even if a handler synchronously calls on or off" for the cited code. -/
theorem trigger2_live_splice_skips_handlers :
    cellList2 c4St2 "x" = [1, 2]
    ∧ (c4Beh 1).2 ≠ JSValue.bool false
    ∧ (c4Beh 2).2 ≠ JSValue.bool false
    ∧ (trigger2 c4St2 9 "x" 0 [] c4Beh).trace.map Invoc.h = [1]
    ∧ (trigger2 c4St2 9 "x" 0 [] c4Beh).ok = false
    ∧ ([1] : List Nat) ≠ [1, 2] := by
  refine ⟨rfl, by decide, by decide, rfl, rfl, by decide⟩

/-! ## Claim C6 — `off` removal semantics in both revisions -/

/-- C6: `off(O, t)` with the handler omitted deletes the whole sequence
for `t` in one call (the type key is gone afterwards); `off(O, t, h)`
removes every registration whose identity tag (guid) matches `h` — so a
callable registered twice is removed twice by one call — while the
remaining registrations keep their original order (the result is exactly
the filter of the previous sequence), and no error is raised when nothing
matches (`off1`/`off2` are total, and a miss leaves the sequence equal to
its filter, i.e. unchanged).  Proven for revision 1 (`src/monterey.js`
lines 140–169) and revision 2 (lines 454–476). -/
theorem entryList1_off1Arr (st : St1) (t : String) (nh : List Nat) :
    entryList1 (off1Arr st t nh) t = nh := by
  match nh with
  | [] => simp [off1Arr, entryList1, lookupA_removeA_self]
  | [x] => simp [off1Arr, entryList1, lookupA_setA_self]
  | y :: z :: zs =>
    simp [off1Arr, entryList1, lookupA_setA_self, getD_append_self st.heap (y :: z :: zs)]

theorem off_removal_semantics (st : St1) (st2 : St2) (t : String) (h : Nat) :
    lookupA (off1 st t none).reg t = none
    ∧ entryList1 (off1 st t (some h)) t
        = (entryList1 st t).filter (fun x => x ≠ h)
    ∧ lookupA (off2 st2 t none).reg t = none
    ∧ cellList2 (off2 st2 t (some h)) t
        = (cellList2 st2 t).filter (fun x => x ≠ h) := by
  refine ⟨?_, ?_, ?_, ?_⟩
  · simp [off1, lookupA_removeA_self]
  · cases hl : lookupA st.reg t with
    | none => simp [off1, entryList1, hl]
    | some e =>
      cases e with
      | single h0 =>
        by_cases hh : h0 = h
        · simp [off1, entryList1, hl, hh, lookupA_removeA_self]
        · simp [off1, entryList1, hl, hh]
      | arr a =>
        have hoff : off1 st t (some h)
            = off1Arr st t ((st.heap.getD a []).filter (fun x => x ≠ h)) := by
          simp [off1, hl]
        rw [hoff, entryList1_off1Arr]
        simp [entryList1, hl]
  · simp [off2, lookupA_removeA_self]
  · cases hl : lookupA st2.reg t with
    | none => simp [off2, cellList2, hl]
    | some a =>
      have hgoal : off2 st2 t (some h)
          = { st2 with heap := updateCell st2.heap a (List.filter (fun x => x ≠ h)) } := by
        simp [off2, hl]
      rw [cellList2, cellList2, hgoal]
      simp only [hl]
      rw [updateCell_getD_self]
      by_cases ha : a < st2.heap.length
      · rw [if_pos ha]
      · rw [if_neg ha]
        have hempty : st2.heap.getD a [] = [] := by
          simp [List.getD_eq_getElem?_getD, List.getElem?_eq_none (Nat.le_of_not_lt ha)]
        rw [hempty]
        rfl

/-! ## Claim C10 — shape invariant of the revision 1 registry -/

/-- The revision 1 registry shape invariant: every registered type maps
either to a bare handler (exactly one registration) or to an array of at
least two handlers — never to an empty or one-element array. -/
def Shape1 (st : St1) : Prop :=
  ∀ t a, lookupA st.reg t = some (.arr a) →
    a < st.heap.length ∧ 2 ≤ (st.heap.getD a []).length

theorem shape1_grow (st : St1) (t : String) (e : Entry1) (cell : List Nat)
    (hcell : 2 ≤ cell.length) (he : ∀ a, e = .arr a → a = st.heap.length)
    (hs : Shape1 st) : Shape1 ⟨st.heap ++ [cell], setA st.reg t e⟩ := by
  intro t' a' hl'
  replace hl' : lookupA (setA st.reg t e) t' = some (.arr a') := hl'
  show a' < (st.heap ++ [cell]).length ∧ 2 ≤ ((st.heap ++ [cell]).getD a' []).length
  by_cases ht : t' = t
  · rw [ht, lookupA_setA_self] at hl'
    have ha' : a' = st.heap.length := he a' (Option.some.inj hl')
    subst ha'
    refine ⟨by simp, ?_⟩
    rw [getD_append_self]
    exact hcell
  · rw [lookupA_setA_ne _ _ _ _ ht] at hl'
    obtain ⟨h1, h2⟩ := hs t' a' hl'
    refine ⟨by simp; omega, ?_⟩
    rw [getD_append_left _ _ _ h1]
    exact h2

theorem shape1_nonarr (st : St1) (t : String) (e : Entry1)
    (he : ∀ a, e ≠ .arr a) (hs : Shape1 st) :
    Shape1 ⟨st.heap, setA st.reg t e⟩ := by
  intro t' a' hl'
  replace hl' : lookupA (setA st.reg t e) t' = some (.arr a') := hl'
  show a' < st.heap.length ∧ 2 ≤ (st.heap.getD a' []).length
  by_cases ht : t' = t
  · rw [ht, lookupA_setA_self] at hl'
    exact absurd (by injection hl') (he a')
  · rw [lookupA_setA_ne _ _ _ _ ht] at hl'
    exact hs t' a' hl'

theorem shape1_remove (st : St1) (t : String) (hs : Shape1 st) :
    Shape1 ⟨st.heap, removeA st.reg t⟩ := by
  intro t' a' hl'
  replace hl' : lookupA (removeA st.reg t) t' = some (.arr a') := hl'
  show a' < st.heap.length ∧ 2 ≤ (st.heap.getD a' []).length
  by_cases ht : t' = t
  · rw [ht, lookupA_removeA_self] at hl'
    cases hl'
  · rw [lookupA_removeA_ne _ _ _ ht] at hl'
    exact hs t' a' hl'

theorem on1_shape (st : St1) (t : String) (h : Nat) (hs : Shape1 st) :
    Shape1 (on1 st t h) := by
  cases hl : lookupA st.reg t with
  | none =>
    have hon : on1 st t h = ⟨st.heap, setA st.reg t (.single h)⟩ := by
      simp [on1, hl]
    rw [hon]
    exact shape1_nonarr st t _ (by intro a hc; cases hc) hs
  | some e =>
    cases e with
    | single h0 =>
      have hon : on1 st t h
          = ⟨st.heap ++ [[h0, h]], setA st.reg t (.arr st.heap.length)⟩ := by
        simp [on1, hl]
      rw [hon]
      exact shape1_grow st t _ [h0, h]
        (by simp only [List.length_cons, List.length_nil]; omega)
        (by intro a hc; injection hc with hh; exact hh.symm) hs
    | arr a =>
      have hon : on1 st t h = ⟨updateCell st.heap a (fun l => l ++ [h]), st.reg⟩ := by
        simp [on1, hl]
      rw [hon]
      intro t' a' hl'
      replace hl' : lookupA st.reg t' = some (.arr a') := hl'
      show a' < (updateCell st.heap a (fun l => l ++ [h])).length
        ∧ 2 ≤ ((updateCell st.heap a (fun l => l ++ [h])).getD a' []).length
      obtain ⟨h1, h2⟩ := hs t' a' hl'
      refine ⟨by simpa [updateCell] using h1, ?_⟩
      by_cases haa : a' = a
      · subst haa
        rw [updateCell_getD_self, if_pos h1]
        simp only [List.length_append, List.length_cons, List.length_nil]
        omega
      · rw [updateCell_getD_ne _ _ _ _ haa]
        exact h2

theorem off1Arr_shape (st : St1) (t : String) (nh : List Nat) (hs : Shape1 st) :
    Shape1 (off1Arr st t nh) := by
  match nh with
  | [] => exact shape1_remove st t hs
  | [x] => exact shape1_nonarr st t _ (by intro a hc; cases hc) hs
  | y :: z :: zs =>
    exact shape1_grow st t _ (y :: z :: zs)
      (by simp only [List.length_cons]; omega)
      (by intro a hc; injection hc with hh; exact hh.symm) hs

theorem off1_shape (st : St1) (t : String) (h? : Option Nat) (hs : Shape1 st) :
    Shape1 (off1 st t h?) := by
  cases h? with
  | none => exact shape1_remove st t hs
  | some h =>
    cases hl : lookupA st.reg t with
    | none =>
      have hoff : off1 st t (some h) = st := by simp [off1, hl]
      rw [hoff]
      exact hs
    | some e =>
      cases e with
      | single h0 =>
        by_cases hh : h0 = h
        · have hoff : off1 st t (some h) = ⟨st.heap, removeA st.reg t⟩ := by
            simp [off1, hl, hh]
          rw [hoff]
          exact shape1_remove st t hs
        · have hoff : off1 st t (some h) = st := by simp [off1, hl, hh]
          rw [hoff]
          exact hs
      | arr a =>
        have hoff : off1 st t (some h)
            = off1Arr st t ((st.heap.getD a []).filter (fun x => x ≠ h)) := by
          simp [off1, hl]
        rw [hoff]
        exact off1Arr_shape st t _ hs

theorem execOp1_shape (st : St1) (op : Op) (hs : Shape1 st) :
    Shape1 (execOp1 st op) := by
  cases op with
  | onOp t h => exact on1_shape st t h hs
  | offAll t => exact off1_shape st t none hs
  | offOne t h => exact off1_shape st t (some h) hs

theorem execOps1_shape (st : St1) (ops : List Op) (hs : Shape1 st) :
    Shape1 (execOps1 st ops) := by
  induction ops generalizing st with
  | nil => exact hs
  | cons op rest ih =>
    have h1 := execOp1_shape st op hs
    have h2 := ih (execOp1 st op) h1
    simpa [execOps1] using h2

theorem go1_shape (beh : Beh) (o : Nat) (t : String) (now : Nat)
    (extra : List JSValue) (a : Nat) :
    ∀ k i st, Shape1 st → Shape1 (go1 beh o t now extra a k i st).st := by
  intro k
  induction k with
  | zero => intro i st hs; simpa [go1] using hs
  | succ k ih =>
    intro i st hs
    simp only [go1]
    split
    · split
      · exact execOps1_shape st _ hs
      · exact ih (i + 1) _ (execOps1_shape st _ hs)
    · exact hs

theorem trigger1_shape (st : St1) (o : Nat) (t : String) (now : Nat)
    (extra : List JSValue) (beh : Beh) (hs : Shape1 st) :
    Shape1 (trigger1 st o t now extra beh).st := by
  unfold trigger1
  split
  · exact hs
  · exact execOps1_shape st _ hs
  · exact go1_shape beh o t now extra _ _ 0 st hs

/-- One public emitter call of revision 1. -/
inductive Call1 where
  | onC (t : String) (h : Nat)
  | offC (t : String) (h? : Option Nat)
  | trigC (o : Nat) (t : String) (now : Nat) (extra : List JSValue)

def execCall1 (beh : Beh) (st : St1) : Call1 → St1
  | .onC t h => on1 st t h
  | .offC t h? => off1 st t h?
  | .trigC o t now extra => (trigger1 st o t now extra beh).st

/-- The registry after an arbitrary sequence of `on`/`off`/`trigger`
calls (the handlers invoked by each `trigger` behave as `beh`). -/
def runCalls1 (beh : Beh) (st : St1) (cs : List Call1) : St1 :=
  cs.foldl (execCall1 beh) st

/-- C10: under every sequence of `on`/`off`/`trigger` calls the revision 1
registry keeps the invariant that each registered type maps either to a
bare handler (exactly one registration) or to an array of at least two
handlers, never to an empty or one-element array (`Shape1`): `on`
upgrades a bare handler to a two-element array when a second handler
arrives, and `off` condenses a one-element remainder to the bare handler
and deletes the type when no handler remains.  `trigger` writes the
registry only through the `on`/`off` calls its handlers perform, which
preserve the invariant. -/
theorem registry_shape_invariant (beh : Beh) (st : St1) (cs : List Call1)
    (hs : Shape1 st) : Shape1 (runCalls1 beh st cs) := by
  induction cs generalizing st with
  | nil => exact hs
  | cons c rest ih =>
    have h1 : Shape1 (execCall1 beh st c) := by
      cases c with
      | onC t h => exact on1_shape st t h hs
      | offC t h? => exact off1_shape st t h? hs
      | trigC o t now extra => exact trigger1_shape st o t now extra beh hs
    have h2 := ih (execCall1 beh st c) h1
    simpa [runCalls1] using h2

/-- Witness for C10 at a concrete input: the empty registry satisfies the
invariant, and it is preserved across a concrete call sequence that
exercises upgrade, push, a dispatch and condensation. -/
theorem registry_shape_invariant_witness :
    Shape1 (runCalls1 (pureBeh (fun _ => JSValue.undefined)) ⟨[], []⟩
      [Call1.onC "x" 1, Call1.onC "x" 2, Call1.onC "x" 3,
       Call1.offC "x" (some 1), Call1.trigC 7 "x" 0 [],
       Call1.offC "x" (some 2)]) :=
  registry_shape_invariant (pureBeh (fun _ => JSValue.undefined)) ⟨[], []⟩ _
    (by
      intro t a hl
      simp [lookupA] at hl)

/-! ## The inheritance engine of `src/index.js` lines 51–157 (the
`Function.prototype` layer of revision 1 of `src/monterey.js`, lines
211–317, is the same code up to the `__monterey_name__` spelling).

Prototype objects live in a store (`protos`) because `inherit` rewires
identity-sensitive links between them (`===` comparisons in
`isParentOf`); a function (class entity) holds the address of its
`prototype` object.  Function `0` is the universal base constructor
`Object`; its prototype object sits at address `0` with a null
[[Prototype]], terminating every chain. -/

/-- A prototype object: its internal [[Prototype]] link
(`Object.getPrototypeOf`), its own `constructor` property (re-established
by `inherit`), and the parent prototype that the non-enumerable `super`
getter installed by `inherit` closes over.  (Every prototype object a
monterey world manipulates carries an own `constructor`, so the
`proto.constructor` read in the `parent` getter is modelled as this own
property.) -/
structure ProtoRec where
  plink : Option Nat
  ctor : Option Nat
  superOf : Option Nat
deriving DecidableEq, Repr

/-- A function (class entity): the address of its `prototype` object, its
enumerable own properties (plain assignments such as `A.x = 1`) and its
non-enumerable own properties (installed with `addProperty`, which uses
`enumerable: false`). -/
structure FnRec where
  protoAddr : Nat
  enumStatics : List (String × JSValue)
  hiddenStatics : List (String × JSValue)
deriving DecidableEq, Repr

structure World where
  protos : List ProtoRec
  fns : List FnRec
deriving DecidableEq, Repr

def pdfl : ProtoRec := ⟨none, none, none⟩

def fdfl : FnRec := ⟨0, [], []⟩

/-- The world containing only `Object` (function `0`, prototype `0`). -/
def seedWorld : World := ⟨[⟨none, some 0, none⟩], [⟨0, [], []⟩]⟩

def getFn (w : World) (f : Nat) : FnRec := w.fns.getD f fdfl

def getProto (w : World) (a : Nat) : ProtoRec := w.protos.getD a pdfl

def setFn (w : World) (f : Nat) (r : FnRec) : World :=
  { w with fns := w.fns.set f r }

def setProto (w : World) (a : Nat) (r : ProtoRec) : World :=
  { w with protos := w.protos.set a r }

def fnProtoAddr (w : World) (f : Nat) : Nat := (getFn w f).protoAddr

/-- Declaration `function f() {}`: a fresh function whose prototype object is
`{ constructor: f }` with [[Prototype]] `Object.prototype` (address 0). -/
def newFn (w : World) : World × Nat :=
  let f := w.fns.length
  (⟨w.protos ++ [⟨some 0, some f, none⟩], w.fns ++ [⟨w.protos.length, [], []⟩]⟩, f)

/-- The helper `addProperty(fn, name, value)` (`src/index.js` lines 14–24):
`Object.defineProperty` with `enumerable: false`, overwriting (and
un-enumerating) any same-named own property. -/
def addPropFn (f : FnRec) (k : String) (v : JSValue) : FnRec :=
  { f with enumStatics := removeA f.enumStatics k,
           hiddenStatics := setA f.hiddenStatics k v }

/-- The helper `addProperties(fn, props)`: `addProperty` for each property in
order. -/
def addPropsFn (f : FnRec) (props : List (String × JSValue)) : FnRec :=
  props.foldl (fun acc kv => addPropFn acc kv.1 kv.2) f

/-- The method `Function#inherit(parent)` (`src/index.js` lines 58–68,
`src/monterey.js` lines 218–229) after the parent check, statement by
statement:
1. `addProperties(this, parent)` — copy the parent's enumerable own
   properties onto the child, installed non-enumerably;
2. `this.prototype = Object.create(parent.prototype)` — fresh prototype
   object whose [[Prototype]] is the parent's current prototype (no own
   `constructor` yet);
3. `addProperty(this.prototype, 'constructor', this)`;
4. `addGetter(this.prototype, 'super', superGetter(parent.prototype))` —
   `parent.prototype` is read again here, after the step 2 reassignment
   (this matters only when `parent === this`). -/
def inheritRun (w : World) (child parent : Nat) : World :=
  let w1 := setFn w child (addPropsFn (getFn w child) ((getFn w parent).enumStatics))
  let newAddr := w1.protos.length
  let w2 := { w1 with
    protos := w1.protos ++ [⟨some (fnProtoAddr w1 parent), none, none⟩] }
  let w3 := setFn w2 child { getFn w2 child with protoAddr := newAddr }
  let w4 := setProto w3 newAddr { getProto w3 newAddr with ctor := some child }
  setProto w4 newAddr { getProto w4 newAddr with superOf := some (fnProtoAddr w4 parent) }

/-- The method `Function#inherit` including its precondition (`src/index.js` lines
58–61): a non-callable parent throws `'Parent must be a function'` before
anything is touched. -/
def inheritChecked (w : World) (child : Nat) (parentV : JSValue) :
    Option String × World :=
  match parentV with
  | .fn p => (none, inheritRun w child p)
  | _ => (some "Parent must be a function", w)

/-- The `parent` getter (`src/index.js` lines 139–142):
`Object.getPrototypeOf(this.prototype)`, and its `constructor` if that
prototype is non-null (`proto && proto.constructor`). -/
def parentF (w : World) (f : Nat) : Option Nat :=
  match (getProto w (fnProtoAddr w f)).plink with
  | none => none
  | some p => (getProto w p).ctor

/-- The `ancestors` getter (`src/index.js` lines 148–157): a do-while
that pushes the receiver first, then follows `parent` until it is null
(`fuel` bounds the walk; every theorem supplies enough). -/
def ancestorsF (w : World) : Nat → Nat → List Nat
  | 0, f => [f]
  | fuel + 1, f =>
    f :: (match parentF w f with
          | none => []
          | some g => ancestorsF w fuel g)

/-- The predicate `Function#isParentOf(fn)` (`src/index.js` lines 108–110):
`this.prototype === Object.getPrototypeOf(fn.prototype)`. -/
def isParentOfF (w : World) (a b : Nat) : Bool :=
  (getProto w (fnProtoAddr w b)).plink == some (fnProtoAddr w a)

/-- The predicate `Function#isChildOf(fn)` (lines 116–118): `fn.isParentOf(this)`. -/
def isChildOfF (w : World) (b a : Nat) : Bool := isParentOfF w a b

/-- The [[Prototype]] chain starting at a prototype object. -/
def protoChainF (w : World) : Nat → Option Nat → List Nat
  | 0, _ => []
  | _ + 1, none => []
  | fuel + 1, some a => a :: protoChainF w fuel (getProto w a).plink

/-- The test `x instanceof A` for an instance whose own [[Prototype]] is
`startProto` (for `new B()` that is the current `B.prototype`): does
`A.prototype` occur in the chain? -/
def instanceOfF (w : World) (fuel : Nat) (startProto : Option Nat) (a : Nat) : Bool :=
  (protoChainF w fuel startProto).contains (fnProtoAddr w a)

/-- The back-reference `f.prototype.constructor` as a function id. -/
def ctorOf (w : World) (f : Nat) : Option Nat := (getProto w (fnProtoAddr w f)).ctor

/-! ### Generic list-store lemmas -/

theorem getD_set_self' {α : Type} (l : List α) (i : Nat) (x d : α)
    (h : i < l.length) : (l.set i x).getD i d = x := by
  simp [List.getD_eq_getElem?_getD, List.getElem?_set_self h]

theorem getD_set_ne' {α : Type} (l : List α) (i j : Nat) (x d : α)
    (h : j ≠ i) : (l.set i x).getD j d = l.getD j d := by
  simp [List.getD_eq_getElem?_getD, List.getElem?_set_ne (Ne.symm h)]

theorem getD_append_len {α : Type} (l : List α) (x d : α) :
    (l ++ [x]).getD l.length d = x := by
  simp [List.getD_eq_getElem?_getD, List.getElem?_concat_length]

theorem getD_append_lt {α : Type} (l : List α) (x d : α) (j : Nat)
    (h : j < l.length) : (l ++ [x]).getD j d = l.getD j d := by
  simp [List.getD_eq_getElem?_getD, List.getElem?_append_left h]

theorem set_append_len {α : Type} (l : List α) (x y : α) :
    (l ++ [x]).set l.length y = l ++ [y] := by
  induction l with
  | nil => rfl
  | cons a t ih => simp [List.set, ih]

theorem addPropsFn_protoAddr (f : FnRec) (props : List (String × JSValue)) :
    (addPropsFn f props).protoAddr = f.protoAddr := by
  induction props generalizing f with
  | nil => rfl
  | cons kv rest ih =>
    have hstep : addPropsFn f (kv :: rest) = addPropsFn (addPropFn f kv.1 kv.2) rest := rfl
    rw [hstep, ih (addPropFn f kv.1 kv.2)]
    rfl

/-- The child record after `inherit`: the parent's enumerable statics
copied on non-enumerably, and `prototype` rewired to the fresh address. -/
def inheritedFnRec (w : World) (c p : Nat) : FnRec :=
  { addPropsFn (getFn w c) ((getFn w p).enumStatics) with
    protoAddr := w.protos.length }

/-- The fresh prototype record created by `inherit`. -/
def inheritedProtoRec (w : World) (c p : Nat) : ProtoRec :=
  ⟨some (fnProtoAddr w p), some c,
   some (if p = c then w.protos.length else fnProtoAddr w p)⟩

/-- Effect on functions: `inheritRun` leaves the store with exactly the child record
rewired. -/
theorem inheritRun_fns (w : World) (c p : Nat) (hc : c < w.fns.length) :
    (inheritRun w c p).fns = w.fns.set c (inheritedFnRec w c p) := by
  show ((w.fns.set c (addPropsFn (getFn w c) ((getFn w p).enumStatics))).set c
      { (w.fns.set c (addPropsFn (getFn w c) ((getFn w p).enumStatics))).getD c fdfl with
        protoAddr := w.protos.length })
    = w.fns.set c (inheritedFnRec w c p)
  rw [getD_set_self' _ _ _ _ hc, List.set_set]
  rfl

/-- Effect on prototypes: `inheritRun` appends exactly the fresh record. -/
theorem inheritRun_protos (w : World) (c p : Nat) (hc : c < w.fns.length) :
    (inheritRun w c p).protos = w.protos ++ [inheritedProtoRec w c p] := by
  by_cases hpc : p = c
  · subst hpc
    simp only [inheritRun, setFn, setProto, getFn, getProto, fnProtoAddr]
    rw [List.set_set, getD_set_self' _ _ _ _ hc, addPropsFn_protoAddr,
      getD_append_len, set_append_len, set_append_len, getD_append_len]
    simp [inheritedProtoRec]
    constructor
    · simp [fnProtoAddr, getFn]
    · rw [List.getElem?_set_self hc]
      simp
  · simp only [inheritRun, setFn, setProto, getFn, getProto, fnProtoAddr]
    rw [List.set_set, getD_set_self' _ _ _ _ hc,
      getD_set_ne' _ _ _ _ _ hpc, getD_set_ne' _ _ _ _ _ hpc,
      getD_append_len, set_append_len, set_append_len, getD_append_len]
    simp [inheritedProtoRec, hpc]
    constructor
    · simp [fnProtoAddr, getFn]
    · rw [List.getElem?_set_ne (Ne.symm hpc)]
      simp [fnProtoAddr, getFn]

/-! ### Frame facts for `inheritRun` and `newFn` -/

theorem inheritRun_fns_length (w : World) (c p : Nat) (hc : c < w.fns.length) :
    (inheritRun w c p).fns.length = w.fns.length := by
  rw [inheritRun_fns _ _ _ hc, List.length_set]

theorem inheritRun_protos_length (w : World) (c p : Nat) (hc : c < w.fns.length) :
    (inheritRun w c p).protos.length = w.protos.length + 1 := by
  rw [inheritRun_protos _ _ _ hc, List.length_append, List.length_cons, List.length_nil]

theorem getFn_inheritRun_other (w : World) (c p f : Nat) (hc : c < w.fns.length)
    (hf : f ≠ c) : getFn (inheritRun w c p) f = getFn w f := by
  unfold getFn
  rw [inheritRun_fns _ _ _ hc, getD_set_ne' _ _ _ _ _ hf]

theorem fnProtoAddr_inheritRun_other (w : World) (c p f : Nat) (hc : c < w.fns.length)
    (hf : f ≠ c) : fnProtoAddr (inheritRun w c p) f = fnProtoAddr w f := by
  unfold fnProtoAddr
  rw [getFn_inheritRun_other _ _ _ _ hc hf]

theorem fnProtoAddr_inheritRun_child (w : World) (c p : Nat) (hc : c < w.fns.length) :
    fnProtoAddr (inheritRun w c p) c = w.protos.length := by
  unfold fnProtoAddr getFn
  rw [inheritRun_fns _ _ _ hc, getD_set_self' _ _ _ _ hc]
  rfl

theorem getProto_inheritRun_old (w : World) (c p a : Nat) (hc : c < w.fns.length)
    (ha : a < w.protos.length) : getProto (inheritRun w c p) a = getProto w a := by
  unfold getProto
  rw [inheritRun_protos _ _ _ hc, getD_append_lt _ _ _ _ ha]

theorem getProto_inheritRun_new (w : World) (c p : Nat) (hc : c < w.fns.length) :
    getProto (inheritRun w c p) w.protos.length = inheritedProtoRec w c p := by
  unfold getProto
  rw [inheritRun_protos _ _ _ hc, getD_append_len]

theorem newFn_id (w : World) : (newFn w).2 = w.fns.length := rfl

theorem newFn_fns_length (w : World) : (newFn w).1.fns.length = w.fns.length + 1 := by
  show (w.fns ++ [(⟨w.protos.length, [], []⟩ : FnRec)]).length = w.fns.length + 1
  rw [List.length_append, List.length_cons, List.length_nil]

theorem newFn_protos_length (w : World) :
    (newFn w).1.protos.length = w.protos.length + 1 := by
  show (w.protos ++ [(⟨some 0, some w.fns.length, none⟩ : ProtoRec)]).length
    = w.protos.length + 1
  rw [List.length_append, List.length_cons, List.length_nil]

theorem getFn_newFn_self (w : World) :
    getFn (newFn w).1 w.fns.length = ⟨w.protos.length, [], []⟩ := by
  unfold getFn
  show (w.fns ++ [(⟨w.protos.length, [], []⟩ : FnRec)]).getD w.fns.length fdfl = _
  rw [getD_append_len]

theorem getFn_newFn_old (w : World) (f : Nat) (hf : f < w.fns.length) :
    getFn (newFn w).1 f = getFn w f := by
  unfold getFn
  show (w.fns ++ [(⟨w.protos.length, [], []⟩ : FnRec)]).getD f fdfl = w.fns.getD f fdfl
  rw [getD_append_lt _ _ _ _ hf]

theorem getProto_newFn_self (w : World) :
    getProto (newFn w).1 w.protos.length = ⟨some 0, some w.fns.length, none⟩ := by
  unfold getProto
  show (w.protos ++ [(⟨some 0, some w.fns.length, none⟩ : ProtoRec)]).getD w.protos.length pdfl = _
  rw [getD_append_len]

theorem getProto_newFn_old (w : World) (a : Nat) (ha : a < w.protos.length) :
    getProto (newFn w).1 a = getProto w a := by
  unfold getProto
  show (w.protos ++ [(⟨some 0, some w.fns.length, none⟩ : ProtoRec)]).getD a pdfl = w.protos.getD a pdfl
  rw [getD_append_lt _ _ _ _ ha]

theorem ctorOf_inheritRun (w : World) (c p : Nat) (hc : c < w.fns.length) :
    ctorOf (inheritRun w c p) c = some c := by
  unfold ctorOf
  rw [fnProtoAddr_inheritRun_child _ _ _ hc, getProto_inheritRun_new _ _ _ hc]
  rfl

/-! ## Claim C1 — inherit establishes the parent/child relationship -/

/-- A world with `Object` and one plain function (`1`). -/
def c1World : World := (newFn seedWorld).1

/-- C1 counterexample: the claim quantifies over all class entities A and
B, including `A = B`.  `B.inherit(B)` succeeds (no throw: the parent is
callable), yet afterwards `B.isParentOf(B)` is false — `isParentOf`
compares `this.prototype` (the fresh prototype installed by the call)
with `Object.getPrototypeOf(fn.prototype)` (the old prototype it now
links to), two distinct objects — and hence `B.isChildOf(B)` is false
too, contradicting the claim as stated. -/
theorem inherit_self_breaks_isParentOf :
    (inheritChecked c1World 1 (JSValue.fn 1)).1 = none
    ∧ isParentOfF (inheritChecked c1World 1 (JSValue.fn 1)).2 1 1 = false
    ∧ isChildOfF (inheritChecked c1World 1 (JSValue.fn 1)).2 1 1 = false := by
  refine ⟨rfl, ?_, ?_⟩ <;> decide

/-- C1 (amended): for all *distinct* class entities `A ≠ B` (with `A` a
well-formed entity: its prototype lives in the store and carries the
`constructor` back-reference), after `B.inherit(A)`: `B.parent === A`,
`A.isParentOf(B)`, `B.isChildOf(A)`, and every instance subsequently
constructed from `B` (whose [[Prototype]] is the new `B.prototype`)
satisfies `instance instanceof A`. -/
theorem inherit_establishes_relationship (w : World) (A B : Nat)
    (hB : B < w.fns.length) (hAB : A ≠ B)
    (hArange : fnProtoAddr w A < w.protos.length)
    (hActor : (getProto w (fnProtoAddr w A)).ctor = some A) :
    parentF (inheritRun w B A) B = some A
    ∧ isParentOfF (inheritRun w B A) A B = true
    ∧ isChildOfF (inheritRun w B A) B A = true
    ∧ ∀ fuel, instanceOfF (inheritRun w B A) (fuel + 2)
        (some (fnProtoAddr (inheritRun w B A) B)) A = true := by
  have hBaddr := fnProtoAddr_inheritRun_child w B A hB
  have hAaddr := fnProtoAddr_inheritRun_other w B A A hB hAB
  have hnew := getProto_inheritRun_new w B A hB
  have hold := getProto_inheritRun_old w B A (fnProtoAddr w A) hB hArange
  have hrec : inheritedProtoRec w B A
      = ⟨some (fnProtoAddr w A), some B, some (fnProtoAddr w A)⟩ := by
    simp [inheritedProtoRec, hAB]
  refine ⟨?_, ?_, ?_, ?_⟩
  · unfold parentF
    rw [hBaddr, hnew, hrec]
    show (getProto (inheritRun w B A) (fnProtoAddr w A)).ctor = some A
    rw [hold, hActor]
  · unfold isParentOfF
    rw [hBaddr, hnew, hrec, hAaddr]
    simp
  · unfold isChildOfF isParentOfF
    rw [hBaddr, hnew, hrec, hAaddr]
    simp
  · intro fuel
    unfold instanceOfF
    rw [hBaddr, hAaddr]
    have hchain : protoChainF (inheritRun w B A) (fuel + 2) (some w.protos.length)
        = w.protos.length :: protoChainF (inheritRun w B A) (fuel + 1)
            (getProto (inheritRun w B A) w.protos.length).plink := rfl
    rw [hchain, hnew, hrec]
    show (w.protos.length :: protoChainF (inheritRun w B A) (fuel + 1)
        (some (fnProtoAddr w A))).contains (fnProtoAddr w A) = true
    have hchain2 : protoChainF (inheritRun w B A) (fuel + 1) (some (fnProtoAddr w A))
        = fnProtoAddr w A :: protoChainF (inheritRun w B A) fuel
            (getProto (inheritRun w B A) (fnProtoAddr w A)).plink := rfl
    rw [hchain2]
    simp

/-- A world with `Object` and two plain functions `1` and `2`. -/
def twoFnWorld : World := (newFn (newFn seedWorld).1).1

/-- Witness for the amended C1 at `A := 1`, `B := 2` in `twoFnWorld`. -/
theorem inherit_establishes_relationship_witness :
    parentF (inheritRun twoFnWorld 2 1) 2 = some 1
    ∧ isParentOfF (inheritRun twoFnWorld 2 1) 1 2 = true
    ∧ isChildOfF (inheritRun twoFnWorld 2 1) 2 1 = true
    ∧ instanceOfF (inheritRun twoFnWorld 2 1) 5
        (some (fnProtoAddr (inheritRun twoFnWorld 2 1) 2)) 1 = true := by
  have h := inherit_establishes_relationship twoFnWorld 1 2
    (by decide) (by decide) (by decide) (by decide)
  exact ⟨h.1, h.2.1, h.2.2.1, h.2.2.2 3⟩

/-! ## Claim C5 — `prototype.constructor` restored by every inherit -/

/-- C5: `B.prototype.constructor === B` after every `inherit` call on `B`
— the call installs a fresh prototype and explicitly writes the
`constructor` back-reference last (`addProperty(this.prototype,
'constructor', this)` in `src/index.js` line 64 / `src/monterey.js` line
225) — including after a second `B.inherit(A)` that replaces the
prototype again. -/
theorem constructor_restored_after_every_inherit (w : World) (A B : Nat)
    (hB : B < w.fns.length) :
    ctorOf (inheritRun w B A) B = some B
    ∧ ctorOf (inheritRun (inheritRun w B A) B A) B = some B := by
  refine ⟨ctorOf_inheritRun w B A hB, ?_⟩
  have hB' : B < (inheritRun w B A).fns.length := by
    rw [inheritRun_fns_length w B A hB]
    exact hB
  exact ctorOf_inheritRun (inheritRun w B A) B A hB'

/-- Witness for C5 at `B := 2`, `A := 1` in `twoFnWorld`. -/
theorem constructor_restored_witness :
    ctorOf (inheritRun twoFnWorld 2 1) 2 = some 2
    ∧ ctorOf (inheritRun (inheritRun twoFnWorld 2 1) 2 1) 2 = some 2 :=
  constructor_restored_after_every_inherit twoFnWorld 1 2 (by decide)

/-! ## Claim C3 — `ancestors` over a two-step inherit chain -/

/-- The chain world: `Object`, plain functions `1` (A), `2` (B), `3` (C);
then `B.inherit(A)` and `C.inherit(B)`. -/
def c3World : World :=
  inheritRun (inheritRun (newFn (newFn (newFn seedWorld).1).1).1 2 1) 3 2

/-- C3 counterexample: the cited `ancestors` getters (`src/index.js`
lines 148–157, `src/monterey.js` lines 308–317) use a do-while that
pushes the receiver *before* following `parent`, so for the chain
A→B→C the sequence is `[C, B, A, Object]` — the receiver is INCLUDED as
the first element, contradicting the claim's "excluding the receiver C
itself as the first element". -/
theorem ancestors_start_with_receiver :
    ancestorsF c3World 6 3 = [3, 2, 1, 0]
    ∧ ([3, 2, 1, 0] : List Nat) ≠ [2, 1, 0] := by
  refine ⟨?_, ?_⟩ <;> decide

/-- C3 (amended): for every chain built by inherit calls on fresh
functions over any base world whose `Object` is well-formed (function `0`
with prototype address `0`, null [[Prototype]], `constructor` = itself),
with `a`, `b = a + 1`, `c = a + 2` the three fresh functions and
`b.inherit(a)` then `c.inherit(b)`: `c.ancestors` yields
`[c, b, a, Object]` — the receiver first (inclusive convention of the
cited revisions), then the sequence obtained by repeatedly following
`parent` until the null sentinel, ending at the universal base
constructor. -/
theorem ancestors_inclusive_chain (w0 : World)
    (hf : 1 ≤ w0.fns.length) (hp : 1 ≤ w0.protos.length)
    (hObjProto : fnProtoAddr w0 0 = 0)
    (h0plink : (getProto w0 0).plink = none)
    (h0ctor : (getProto w0 0).ctor = some 0) :
    ∀ fuel,
      ancestorsF
        (inheritRun
          (inheritRun (newFn (newFn (newFn w0).1).1).1 (w0.fns.length + 1) w0.fns.length)
          (w0.fns.length + 2) (w0.fns.length + 1))
        (fuel + 3) (w0.fns.length + 2)
      = [w0.fns.length + 2, w0.fns.length + 1, w0.fns.length, 0] := by
  intro fuel
  set a := w0.fns.length with ha
  set P := w0.protos.length with hP
  set w1 := (newFn w0).1 with hw1
  set w2 := (newFn w1).1 with hw2
  set w3 := (newFn w2).1 with hw3
  set w4 := inheritRun w3 (a + 1) a with hw4
  set w5 := inheritRun w4 (a + 2) (a + 1) with hw5
  have hw1f : w1.fns.length = a + 1 := newFn_fns_length w0
  have hw2f : w2.fns.length = a + 2 := by rw [newFn_fns_length w1, hw1f]
  have hw3f : w3.fns.length = a + 3 := by rw [newFn_fns_length w2, hw2f]
  have hw1p : w1.protos.length = P + 1 := newFn_protos_length w0
  have hw2p : w2.protos.length = P + 2 := by rw [newFn_protos_length w1, hw1p]
  have hw3p : w3.protos.length = P + 3 := by rw [newFn_protos_length w2, hw2p]
  have hb3 : a + 1 < w3.fns.length := by omega
  have hc4 : a + 2 < w4.fns.length := by
    rw [hw4, inheritRun_fns_length w3 (a + 1) a hb3]
    omega
  have hw4p : w4.protos.length = P + 4 := by
    rw [hw4, inheritRun_protos_length w3 (a + 1) a hb3, hw3p]
  -- prototype addresses of a, b, c before any inherit
  have hfa3a : fnProtoAddr w3 a = P := by
    unfold fnProtoAddr
    rw [hw3, getFn_newFn_old w2 a (by omega), hw2, getFn_newFn_old w1 a (by omega),
      hw1]
    show (getFn (newFn w0).1 w0.fns.length).protoAddr = P
    rw [getFn_newFn_self w0]
  have hfa3b : fnProtoAddr w3 (a + 1) = P + 1 := by
    unfold fnProtoAddr
    rw [hw3, getFn_newFn_old w2 (a + 1) (by omega), hw2]
    rw [show a + 1 = w1.fns.length from hw1f.symm, getFn_newFn_self w1]
    exact hw1p
  have hfa30 : fnProtoAddr w3 0 = 0 := by
    unfold fnProtoAddr
    rw [hw3, getFn_newFn_old w2 0 (by omega), hw2, getFn_newFn_old w1 0 (by omega),
      hw1, getFn_newFn_old w0 0 (by omega)]
    exact hObjProto
  -- prototype records before any inherit
  have hproto3P : getProto w3 P = ⟨some 0, some a, none⟩ := by
    rw [hw3, getProto_newFn_old w2 P (by omega), hw2, getProto_newFn_old w1 P (by omega),
      hw1]
    show getProto (newFn w0).1 w0.protos.length = _
    rw [getProto_newFn_self w0]
  have hproto30 : getProto w3 0 = getProto w0 0 := by
    rw [hw3, getProto_newFn_old w2 0 (by omega), hw2, getProto_newFn_old w1 0 (by omega),
      hw1, getProto_newFn_old w0 0 (by omega)]
  -- effects of b.inherit(a)
  have hfa4b : fnProtoAddr w4 (a + 1) = P + 3 := by
    rw [hw4, fnProtoAddr_inheritRun_child w3 (a + 1) a hb3, hw3p]
  have hrec4 : getProto w4 (P + 3) = ⟨some P, some (a + 1), some P⟩ := by
    have := getProto_inheritRun_new w3 (a + 1) a hb3
    rw [hw3p] at this
    rw [hw4, this]
    simp [inheritedProtoRec, hfa3a]
  have hold4 : ∀ x, x < P + 3 → getProto w4 x = getProto w3 x := by
    intro x hx
    rw [hw4, getProto_inheritRun_old w3 (a + 1) a x hb3 (by omega)]
  have hfa4a : fnProtoAddr w4 a = P := by
    rw [hw4, fnProtoAddr_inheritRun_other w3 (a + 1) a a hb3 (by omega)]
    exact hfa3a
  have hfa40 : fnProtoAddr w4 0 = 0 := by
    rw [hw4, fnProtoAddr_inheritRun_other w3 (a + 1) a 0 hb3 (by omega)]
    exact hfa30
  -- effects of c.inherit(b)
  have hfa5c : fnProtoAddr w5 (a + 2) = P + 4 := by
    rw [hw5, fnProtoAddr_inheritRun_child w4 (a + 2) (a + 1) hc4, hw4p]
  have hrec5 : getProto w5 (P + 4) = ⟨some (P + 3), some (a + 2), some (P + 3)⟩ := by
    have := getProto_inheritRun_new w4 (a + 2) (a + 1) hc4
    rw [hw4p] at this
    rw [hw5, this]
    simp [inheritedProtoRec, hfa4b, hw4p]
  have hold5 : ∀ x, x < P + 4 → getProto w5 x = getProto w4 x := by
    intro x hx
    rw [hw5, getProto_inheritRun_old w4 (a + 2) (a + 1) x hc4 (by omega)]
  have hfa5b : fnProtoAddr w5 (a + 1) = P + 3 := by
    rw [hw5, fnProtoAddr_inheritRun_other w4 (a + 2) (a + 1) (a + 1) hc4 (by omega)]
    exact hfa4b
  have hfa5a : fnProtoAddr w5 a = P := by
    rw [hw5, fnProtoAddr_inheritRun_other w4 (a + 2) (a + 1) a hc4 (by omega)]
    exact hfa4a
  have hfa50 : fnProtoAddr w5 0 = 0 := by
    rw [hw5, fnProtoAddr_inheritRun_other w4 (a + 2) (a + 1) 0 hc4 (by omega)]
    exact hfa40
  -- the four parent steps
  have hparC : parentF w5 (a + 2) = some (a + 1) := by
    unfold parentF
    rw [hfa5c, hrec5]
    show (getProto w5 (P + 3)).ctor = some (a + 1)
    rw [hold5 (P + 3) (by omega), hrec4]
  have hparB : parentF w5 (a + 1) = some a := by
    unfold parentF
    rw [hfa5b, hold5 (P + 3) (by omega), hrec4]
    show (getProto w5 P).ctor = some a
    rw [hold5 P (by omega), hold4 P (by omega), hproto3P]
  have hparA : parentF w5 a = some 0 := by
    unfold parentF
    rw [hfa5a, hold5 P (by omega), hold4 P (by omega), hproto3P]
    show (getProto w5 0).ctor = some 0
    rw [hold5 0 (by omega), hold4 0 (by omega), hproto30]
    exact h0ctor
  have hpar0 : parentF w5 0 = none := by
    unfold parentF
    rw [hfa50, hold5 0 (by omega), hold4 0 (by omega), hproto30, h0plink]
  -- assemble the do-while walk
  have h0walk : ∀ g, ancestorsF w5 g 0 = [0] := by
    intro g
    cases g with
    | zero => rfl
    | succ g' =>
      show (0 : Nat) :: (match parentF w5 0 with
        | none => []
        | some g => ancestorsF w5 g' g) = [0]
      rw [hpar0]
  show (a + 2) :: (match parentF w5 (a + 2) with
    | none => []
    | some g => ancestorsF w5 (fuel + 2) g) = _
  rw [hparC]
  show (a + 2) :: (a + 1) :: (match parentF w5 (a + 1) with
    | none => []
    | some g => ancestorsF w5 (fuel + 1) g) = _
  rw [hparB]
  show (a + 2) :: (a + 1) :: a :: (match parentF w5 a with
    | none => []
    | some g => ancestorsF w5 fuel g) = _
  rw [hparA]
  show (a + 2) :: (a + 1) :: a :: ancestorsF w5 fuel 0 = _
  rw [h0walk fuel]

/-- Witness for the amended C3 at the seed world (`a = 1`, `b = 2`,
`c = 3`). -/
theorem ancestors_inclusive_chain_witness :
    ancestorsF c3World 7 3 = [3, 2, 1, 0] := by
  have h := ancestors_inclusive_chain seedWorld (by decide) (by decide)
    (by decide) (by decide) (by decide) 4
  exact h

/-! ## Claim C7 — `InvalidArgument` thrown before any mutation -/

/-- Revision 1 `Object.on` including its precondition and the lazy
registry (`src/monterey.js` lines 103–134): the object's
`__monterey_events__` registry (`none` when the property does not exist
yet) is only created *after* the handler check passes — the check is the
first statement of `on`, before the `Object.events(object)` call that
would install the property. -/
def onChecked (ost : Option St1) (t : String) (hv : JSValue) :
    Option String × Option St1 :=
  match hv with
  | .fn h => (none, some (on1 (ost.getD ⟨[], []⟩) t h))
  | _ => (some "Event handler must be a function", ost)

/-- C7: `inherit` with a non-callable parent (`src/index.js` lines
58–61) and `on` with a non-callable handler (`src/monterey.js` lines
114–117) throw synchronously, and the throw happens before any mutation:
the world (child entity, its prototype store) and the object's event
registry — including its not-yet-created state — are returned exactly as
they were. -/
theorem invalid_argument_before_mutation (w : World) (c : Nat) (ost : Option St1)
    (t : String) (v : JSValue) (hv : v.isCallable = false) :
    inheritChecked w c v = (some "Parent must be a function", w)
    ∧ onChecked ost t v = (some "Event handler must be a function", ost) := by
  cases v <;> simp_all [inheritChecked, onChecked, JSValue.isCallable]

/-- Witness for C7: a number is not callable; both calls error and leave
their state untouched (the registry stays uncreated). -/
theorem invalid_argument_before_mutation_witness :
    JSValue.isCallable (JSValue.num 3) = false
    ∧ inheritChecked seedWorld 0 (JSValue.num 3)
        = (some "Parent must be a function", seedWorld)
    ∧ onChecked none "x" (JSValue.num 3)
        = (some "Event handler must be a function", none) := by
  have h := invalid_argument_before_mutation seedWorld 0 none "x"
    (JSValue.num 3) (by decide)
  exact ⟨rfl, h.1, h.2⟩

/-! ## Claim C8 — the `super` getter's resolution rule -/

/-- The property name the `super` getter looks up:
`caller.__montereyName__ || caller.name` — the recorded original name
when present and truthy (a non-empty string), otherwise the caller's own
declared name (`""` for an anonymous function). -/
def superKey (recorded : Option String) (declared : String) : String :=
  match recorded with
  | some s => if s = "" then declared else s
  | none => declared

/-- The closure `superHack` (`src/index.js` lines 40–49): reading `super` from a
method resolves `proto[caller.__montereyName__ || caller.name]` on the
parent's prototype `proto` — a plain property read, which never throws
and yields `undefined` on a miss.  `recorded` is the
`__montereyName__` stamped by `addProperty` at definition time;
`declared` is the caller function's own `name`. -/
def superHack (proto : List (String × JSValue)) (recorded : Option String)
    (declared : String) : JSValue :=
  (lookupA proto (match recorded with
    | some s => if s = "" then declared else s
    | none => declared)).getD .undefined

/-- C8: the `super` accessor resolves, on the parent's prototype, the
property named by the caller's recorded original name or, failing that
(no record, or the falsy recorded name `""`), the caller's own declared
name; and when the caller is anonymous with no recorded name (declared
name `""`), or the parent's prototype has no same-named member, the
access does not throw (the read is a total function) but evaluates to
`undefined`. -/
theorem super_resolution_and_miss (proto : List (String × JSValue))
    (recorded : Option String) (declared : String) :
    superHack proto recorded declared
        = (lookupA proto (superKey recorded declared)).getD .undefined
    ∧ (lookupA proto (superKey recorded declared) = none →
        superHack proto recorded declared = .undefined)
    ∧ ((recorded = none ∨ recorded = some "") → lookupA proto declared = none →
        superHack proto recorded declared = .undefined) := by
  refine ⟨rfl, ?_, ?_⟩
  · intro h
    show (lookupA proto (superKey recorded declared)).getD .undefined = .undefined
    rw [h]
    rfl
  · rintro (rfl | rfl) hl
    · show (lookupA proto declared).getD .undefined = .undefined
      rw [hl]
      rfl
    · show (lookupA proto (if ("" : String) = "" then declared else "")).getD
          JSValue.undefined = .undefined
      rw [if_pos rfl, hl]
      rfl

/-- Witness for C8: an anonymous caller with no recorded name misses
(evaluating to `undefined`, not an error), while a stamped name
resolves the parent method. -/
theorem super_resolution_and_miss_witness :
    superHack [("greet", JSValue.fn 5)] none "" = .undefined
    ∧ superHack [("greet", JSValue.fn 5)] (some "greet") "" = .fn 5 := by
  have h := super_resolution_and_miss [("greet", JSValue.fn 5)] none ""
  exact ⟨h.2.2 (Or.inl rfl) (by decide), by decide⟩

/-! ## Claim C9 — what `inherit` mutates in revision 2 of
`src/monterey.js` (lines 536–550), the variant that triggers an
`"inherited"` event on the parent -/

/-- A function of revision 2: prototype address, enumerable own statics
(revision 2's `Object.merge` copies with plain assignment, so copies stay
enumerable), and the `_events` registry — `none` while the
non-enumerable `_events` property has not been created yet.  `_events`
and `_mixins` are non-enumerable, so `merge` never copies them. -/
structure Fn2 where
  protoAddr : Nat
  statics : List (String × JSValue)
  evReg : Option (List (String × List Nat))
deriving DecidableEq, Repr

structure World2 where
  protos : List ProtoRec
  fns : List Fn2
deriving DecidableEq, Repr

def f2dfl : Fn2 := ⟨0, [], none⟩

/-- The helper `Object.merge(target, src)` (lines 338–352): assign every enumerable
own property of `src` onto `target`, in order. -/
def merge2 (target src : List (String × JSValue)) : List (String × JSValue) :=
  src.foldl (fun m kv => setA m kv.1 kv.2) target

def getFn2 (w : World2) (f : Nat) : Fn2 := w.fns.getD f f2dfl

/-- The state change of revision 2 `Function.prototype.inherit`
(lines 536–550), after the `Function.isFunction` check, statement by
statement: `Object.merge(this, fn)`; `this.prototype =
Object.create(fn.prototype)`; `defineProperty(this.prototype,
'constructor', { value: this })`; then the `Object.events(fn)` call at
the head of `Object.trigger(fn, 'inherited', this)`, which installs the
(empty) `_events` property on the PARENT when absent. -/
def inherit2core (w : World2) (child parent : Nat) : World2 :=
  let pf := getFn2 w parent
  let cf := getFn2 w child
  let cf1 : Fn2 := { cf with statics := merge2 cf.statics pf.statics }
  let w1 : World2 := ⟨w.protos ++ [⟨some pf.protoAddr, some child, none⟩],
    w.fns.set child { cf1 with protoAddr := w.protos.length }⟩
  let pf1 := getFn2 w1 parent
  { w1 with fns := w1.fns.set parent { pf1 with evReg := some (pf1.evReg.getD []) } }

/-- Revision 2 `Function.prototype.inherit` (lines 536–550) with the full
`'inherited'` dispatch on the parent (handlers modelled pure, returning
`ret h`, with the `=== false` short-circuit of revision 2 `trigger`): the
result is the new world and the invocation trace of the dispatch, whose
event value is `{type: 'inherited', time: now, source: parent}` and whose
payload argument is the child. -/
def inherit2 (w : World2) (child parent : Nat) (now : Nat)
    (ret : Nat → JSValue) : World2 × List Invoc :=
  match lookupA ((getFn2 (inherit2core w child parent) parent).evReg.getD [])
      "inherited" with
  | none => (inherit2core w child parent, [])
  | some hs =>
      (inherit2core w child parent,
       mkTrace parent "inherited" now [JSValue.fn child] (dispatchList ret hs))

theorem inherit2_fst (w : World2) (c p : Nat) (now : Nat) (ret : Nat → JSValue) :
    (inherit2 w c p now ret).1 = inherit2core w c p := by
  unfold inherit2
  split <;> rfl

theorem getFn2_inherit2core_parent (w : World2) (c p : Nat)
    (hp : p < w.fns.length) (hcp : c ≠ p) :
    getFn2 (inherit2core w c p) p
      = { getFn2 w p with evReg := some ((getFn2 w p).evReg.getD []) } := by
  unfold inherit2core getFn2
  rw [getD_set_self' _ _ _ _ (by rw [List.length_set]; exact hp)]
  rw [getD_set_ne' _ _ _ _ _ (Ne.symm hcp)]

theorem getFn2_inherit2core_other (w : World2) (c p f : Nat)
    (hfc : f ≠ c) (hfp : f ≠ p) :
    getFn2 (inherit2core w c p) f = getFn2 w f := by
  unfold inherit2core getFn2
  rw [getD_set_ne' _ _ _ _ _ hfp, getD_set_ne' _ _ _ _ _ hfc]

theorem inherit2core_protos (w : World2) (c p : Nat) :
    (inherit2core w c p).protos
      = w.protos ++ [⟨some (getFn2 w p).protoAddr, some c, none⟩] := rfl

/-- A world with `Object`, a parent (`1`) and a child (`2`), none of which
has an `_events` property yet. -/
def c9World : World2 :=
  ⟨[⟨none, some 0, none⟩, ⟨some 0, some 1, none⟩, ⟨some 0, some 2, none⟩],
   [⟨0, [], none⟩, ⟨1, [], none⟩, ⟨2, [], none⟩]⟩

/-- C9 counterexample: `child.inherit(parent)` does NOT leave the
parent's own properties unchanged — the `'inherited'` trigger's
`Object.events(fn)` call installs the (empty) `_events` registry as a
new own property on the parent when it was absent, an observable
mutation of the parent, contradicting "parent's own properties ... are
left unchanged by the call, also in the variant that emits an
'inherited' event". -/
theorem inherit2_creates_parent_events :
    (getFn2 c9World 1).evReg = none
    ∧ (getFn2 (inherit2 c9World 2 1 0 (fun _ => JSValue.undefined)).1 1).evReg = some []
    ∧ getFn2 (inherit2 c9World 2 1 0 (fun _ => JSValue.undefined)).1 1 ≠ getFn2 c9World 1 := by
  refine ⟨rfl, ?_, ?_⟩ <;> decide

/-- C9 (amended): `child.inherit(parent)` in revision 2 mutates only the
child, except that the `'inherited'` trigger lazily creates the parent's
(empty) event-registry property when it was absent: the parent's statics
and prototype reference are unchanged (its record changes only by
`evReg` going from `none` to `some []`, and is entirely unchanged when
the registry already existed), the parent's prototype object is
unchanged, every other function is untouched, and the `'inherited'`
event is emitted on the parent with the child as payload after the
rewiring. -/
theorem inherit2_frame (w : World2) (c p : Nat) (now : Nat) (ret : Nat → JSValue)
    (hp : p < w.fns.length) (hcp : c ≠ p)
    (hpaddr : (getFn2 w p).protoAddr < w.protos.length) :
    getFn2 (inherit2 w c p now ret).1 p
        = { getFn2 w p with evReg := some ((getFn2 w p).evReg.getD []) }
    ∧ ((getFn2 w p).evReg = none →
        getFn2 (inherit2 w c p now ret).1 p = { getFn2 w p with evReg := some [] })
    ∧ (∀ m, (getFn2 w p).evReg = some m →
        getFn2 (inherit2 w c p now ret).1 p = getFn2 w p)
    ∧ (inherit2 w c p now ret).1.protos.getD (getFn2 w p).protoAddr pdfl
        = w.protos.getD (getFn2 w p).protoAddr pdfl
    ∧ (∀ f, f ≠ c → f ≠ p → getFn2 (inherit2 w c p now ret).1 f = getFn2 w f)
    ∧ (inherit2 w c p now ret).2
        = mkTrace p "inherited" now [JSValue.fn c]
            (dispatchList ret
              ((lookupA ((getFn2 w p).evReg.getD []) "inherited").getD [])) := by
  have hmain := getFn2_inherit2core_parent w c p hp hcp
  refine ⟨?_, ?_, ?_, ?_, ?_, ?_⟩
  · rw [inherit2_fst, hmain]
  · intro hnone
    rw [inherit2_fst, hmain, hnone]
    rfl
  · intro m hm
    rw [inherit2_fst, hmain, hm]
    show ({ getFn2 w p with evReg := some m } : Fn2) = getFn2 w p
    rw [← hm]
  · rw [inherit2_fst, inherit2core_protos,
      getD_append_lt _ _ _ _ hpaddr]
  · intro f hfc hfp
    rw [inherit2_fst]
    exact getFn2_inherit2core_other w c p f hfc hfp
  · unfold inherit2
    rw [hmain]
    show (match lookupA ((getFn2 w p).evReg.getD []) "inherited" with
      | none => (inherit2core w c p, ([] : List Invoc))
      | some hs => (inherit2core w c p,
          mkTrace p "inherited" now [JSValue.fn c] (dispatchList ret hs))).2
      = mkTrace p "inherited" now [JSValue.fn c]
          (dispatchList ret
            ((lookupA ((getFn2 w p).evReg.getD []) "inherited").getD []))
    cases hl : lookupA ((getFn2 w p).evReg.getD []) "inherited" with
    | none => rfl
    | some hs => rfl

/-- Witness for the amended C9: concrete parent `1` with no registry yet
gains exactly the empty registry, its prototype record and the sibling
`0` are untouched, and the dispatch trace is the (empty) `'inherited'`
dispatch. -/
theorem inherit2_frame_witness :
    getFn2 (inherit2 c9World 2 1 0 (fun _ => JSValue.undefined)).1 1
        = { getFn2 c9World 1 with evReg := some [] }
    ∧ (inherit2 c9World 2 1 0 (fun _ => JSValue.undefined)).1.protos.getD
        (getFn2 c9World 1).protoAddr pdfl
      = c9World.protos.getD (getFn2 c9World 1).protoAddr pdfl
    ∧ getFn2 (inherit2 c9World 2 1 0 (fun _ => JSValue.undefined)).1 0
        = getFn2 c9World 0
    ∧ (inherit2 c9World 2 1 0 (fun _ => JSValue.undefined)).2
        = mkTrace 1 "inherited" 0 [JSValue.fn 2]
            (dispatchList (fun _ => JSValue.undefined)
              ((lookupA ((getFn2 c9World 1).evReg.getD []) "inherited").getD [])) := by
  have h := inherit2_frame c9World 2 1 0 (fun _ => JSValue.undefined)
    (by decide) (by decide) (by decide)
  exact ⟨h.2.1 rfl, h.2.2.2.1, h.2.2.2.2.1 0 (by decide) (by decide), h.2.2.2.2.2⟩
